import Mathlib

/-!  Shallow embedding of the gov-news aggregation pipeline:
`src/main.py` (date-text extraction, date normalization, page adapter,
ingestion orchestrator) and `src/notion_client_util.py` (the upsert/dedup
reconciler against the record store).  Python strings are modelled as
lists of characters; Python `datetime` values are modelled by the fields
the pipeline actually consults. -/

/-- Python strings are modelled as lists of characters. -/
abbrev Str := List Char

/-- Decimal digit test: the character class `\d` of the regexes in
`DATE_PATTERNS` (the inputs of interest use ASCII digits). -/
def isDigitCh (c : Char) : Bool := 48 ≤ c.toNat && c.toNat ≤ 57

/-- Whitespace test: the character class `\s` (ASCII part). -/
def isWsCh (c : Char) : Bool :=
  c.toNat == 32 || c.toNat == 9 || c.toNat == 10 || c.toNat == 13 ||
    c.toNat == 11 || c.toNat == 12

/-- Numeric value of a string of decimal digits, Python `int(...)` on a
captured digit group. -/
def digitsToNat (l : Str) : Nat := l.foldl (fun a c => 10 * a + (c.toNat - 48)) 0

/-- Python `str.strip()`: whitespace removal at both ends. -/
def pyStrip (l : Str) : Str :=
  ((l.dropWhile isWsCh).reverse.dropWhile isWsCh).reverse

/-- Python slicing `s[:n]`. -/
def pyTake (l : Str) (n : Nat) : Str := l.take n

/-- Python truthiness of a string: non-empty. -/
def strTruthy (l : Str) : Bool := !l.isEmpty

/-- Python truthiness of an optional string (`None` and `""` are falsy). -/
def optTruthy : Option Str → Bool
  | none => false
  | some s => strTruthy s

/-- Decimal digits of a natural number, Python `str(n)`. -/
def natStr (n : Nat) : Str := Nat.toDigits 10 n

/-- Python `f"{y}"` for an int. -/
def intStr (y : Int) : Str :=
  if y < 0 then '-' :: natStr y.natAbs else natStr y.toNat

/-- Python `f"{n:02d}"` for a non-negative value. -/
def pad2 (n : Nat) : Str := if n < 10 then '0' :: natStr n else natStr n

/-- The canonical date string `f"{year}-{month:02d}-{day:02d}"` built by
`normalize_date_text`. -/
def fmtDate (y : Int) (m d : Nat) : Str :=
  intStr y ++ '-' :: (pad2 m ++ '-' :: pad2 d)

/-- Greedy match of one or two decimal digits (`\d{1,2}`): the matched
digits and the rest.  In every pattern of the source an occurrence of
`\d{1,2}` is followed by a non-digit requirement (or the end of the
pattern), so this greedy match coincides with the backtracking regex
semantics of `re`. -/
def digits12 : Str → Option (Str × Str)
  | [] => none
  | [c] => if isDigitCh c then some ([c], []) else none
  | c :: d :: rest =>
    if isDigitCh c then
      if isDigitCh d then some ([c, d], rest) else some ([c], d :: rest)
    else none

/-- Match of exactly four decimal digits (`\d{4}`). -/
def digits4 : Str → Option (Str × Str)
  | a :: b :: c :: d :: rest =>
    if isDigitCh a && isDigitCh b && isDigitCh c && isDigitCh d then
      some ([a, b, c, d], rest)
    else none
  | _ => none

/-- Match of one literal character. -/
def chExact (x : Char) : Str → Option Str
  | c :: rest => if c = x then some rest else none
  | [] => none

/-- Match of the character class `[slash-dash]`: the matched separator and the rest. -/
def chSlashDash : Str → Option (Char × Str)
  | c :: rest => if c = '/' ∨ c = '-' then some (c, rest) else none
  | [] => none

/-- Greedy `\s*`: the consumed whitespace and the rest. -/
def wsStar : Str → Str × Str
  | [] => ([], [])
  | c :: rest =>
    if isWsCh c then
      let (w, r) := wsStar rest
      (c :: w, r)
    else ([], c :: rest)

/-- Leftmost search of an anchored matcher over a string: `re.search`
tries every start position from the left and returns the first success. -/
def searchFirst {α : Type} (m : Str → Option α) : Str → Option α
  | [] => m []
  | c :: cs =>
    match m (c :: cs) with
    | some r => some r
    | none => searchFirst m cs

/-- Anchored matcher for `令和(\d{1,2})年\s*(\d{1,2})月\s*(\d{1,2})日`
(main.py line 58): the three captured numbers. -/
def matchEraNAt (cs : Str) : Option (Nat × Nat × Nat) := do
  let r0 ← chExact '令' cs
  let r1 ← chExact '和' r0
  let (ns, r2) ← digits12 r1
  let r3 ← chExact '年' r2
  let (ms, r5) ← digits12 (wsStar r3).2
  let r6 ← chExact '月' r5
  let (ds, r8) ← digits12 (wsStar r6).2
  let _ ← chExact '日' r8
  return (digitsToNat ns, digitsToNat ms, digitsToNat ds)

/-- Anchored matcher for `(\d{4})年\s*(\d{1,2})月\s*(\d{1,2})日`
(main.py line 66). -/
def matchY4KanjiAt (cs : Str) : Option (Nat × Nat × Nat) := do
  let (ys, r1) ← digits4 cs
  let r2 ← chExact '年' r1
  let (ms, r3) ← digits12 (wsStar r2).2
  let r4 ← chExact '月' r3
  let (ds, r5) ← digits12 (wsStar r4).2
  let _ ← chExact '日' r5
  return (digitsToNat ys, digitsToNat ms, digitsToNat ds)

/-- Anchored matcher for `(\d{4})[slash-dash](\d{1,2})[slash-dash](\d{1,2})`
(main.py line 74). -/
def matchY4SlashAt (cs : Str) : Option (Nat × Nat × Nat) := do
  let (ys, r1) ← digits4 cs
  let (_, r2) ← chSlashDash r1
  let (ms, r3) ← digits12 r2
  let (_, r4) ← chSlashDash r3
  let (ds, _) ← digits12 r4
  return (digitsToNat ys, digitsToNat ms, digitsToNat ds)

/-- Anchored matcher for `(\d{1,2})月\s*(\d{1,2})日` (main.py line 82). -/
def matchMdKanjiAt (cs : Str) : Option (Nat × Nat) := do
  let (ms, r1) ← digits12 cs
  let r2 ← chExact '月' r1
  let (ds, r3) ← digits12 (wsStar r2).2
  let _ ← chExact '日' r3
  return (digitsToNat ms, digitsToNat ds)

/-- Anchored matcher for `(\d{1,2})[slash-dash](\d{1,2})` (main.py line 84). -/
def matchMdSlashAt (cs : Str) : Option (Nat × Nat) := do
  let (ms, r1) ← digits12 cs
  let (_, r2) ← chSlashDash r1
  let (ds, _) ← digits12 r2
  return (digitsToNat ms, digitsToNat ds)

/-- A Python `datetime` as far as the pipeline consults it: the calendar
year and month (used to complete year-less dates), the wall-clock instant
in seconds, and the UTC offset of its `tzinfo` (`none` = naive). -/
structure PyDt where
  year : Int
  month : Nat
  wallSec : Int
  tzOffsetSec : Option Int
  deriving DecidableEq

/-- `normalize_date_text` of main.py: shape normalization of a raw date
string; `base` models the `base_dt` reference instant. -/
def normalize_date_text (text : Str) (base : PyDt) : Str :=
  if text.isEmpty then [] else
  let t := pyStrip text
  match searchFirst matchEraNAt t with
  | some (n, m, d) => fmtDate (2018 + (n : Int)) m d
  | none =>
    match searchFirst matchY4KanjiAt t with
    | some (y, m, d) => fmtDate (y : Int) m d
    | none =>
      match searchFirst matchY4SlashAt t with
      | some (y, m, d) => fmtDate (y : Int) m d
      | none =>
        match (searchFirst matchMdKanjiAt t).orElse (fun _ => searchFirst matchMdSlashAt t) with
        | some (m, d) =>
          let year := if base.month < m then base.year - 1 else base.year
          fmtDate year m d
        | none => t

/-- Matched-text matcher for DATE_PATTERNS[0], `(\d{4}[slash-dash]\d{1,2}[slash-dash]\d{1,2})`. -/
def xIsoAt (cs : Str) : Option Str := do
  let (y, r1) ← digits4 cs
  let (s1, r2) ← chSlashDash r1
  let (m, r3) ← digits12 r2
  let (s2, r4) ← chSlashDash r3
  let (d, _) ← digits12 r4
  return y ++ s1 :: (m ++ s2 :: d)

/-- Matched-text matcher for DATE_PATTERNS[1], `(\d{4}年\d{1,2}月\d{1,2}日)`. -/
def xY4KanjiAt (cs : Str) : Option Str := do
  let (y, r1) ← digits4 cs
  let r2 ← chExact '年' r1
  let (m, r3) ← digits12 r2
  let r4 ← chExact '月' r3
  let (d, r5) ← digits12 r4
  let _ ← chExact '日' r5
  return y ++ '年' :: (m ++ '月' :: (d ++ ['日']))

/-- Matched-text matcher for DATE_PATTERNS[2], `(令和\d{1,2}年\d{1,2}月\d{1,2}日)`. -/
def xEraAt (cs : Str) : Option Str := do
  let r0 ← chExact '令' cs
  let r1 ← chExact '和' r0
  let (n, r2) ← digits12 r1
  let r3 ← chExact '年' r2
  let (m, r4) ← digits12 r3
  let r5 ← chExact '月' r4
  let (d, r6) ← digits12 r5
  let _ ← chExact '日' r6
  return '令' :: '和' :: (n ++ '年' :: (m ++ '月' :: (d ++ ['日'])))

/-- Matched-text matcher for DATE_PATTERNS[3], `(\d{1,2}月\d{1,2}日)`. -/
def xMdKanjiAt (cs : Str) : Option Str := do
  let (m, r1) ← digits12 cs
  let r2 ← chExact '月' r1
  let (d, r3) ← digits12 r2
  let _ ← chExact '日' r3
  return m ++ '月' :: (d ++ ['日'])

/-- Matched-text matcher for DATE_PATTERNS[4], `(\d{1,2}[slash-dash]\d{1,2})`. -/
def xMdSlashAt (cs : Str) : Option Str := do
  let (m, r1) ← digits12 cs
  let (s, r2) ← chSlashDash r1
  let (d, _) ← digits12 r2
  return m ++ s :: d

/-- `extract_date_text` of main.py: tries the five DATE_PATTERNS in their
source order (ISO-like numeric, Gregorian long form, era long form,
year-less long form, slash/dash pair) and returns the first pattern's
leftmost match. -/
def extract_date_text (text : Str) : Option Str :=
  if text.isEmpty then none else
  match searchFirst xIsoAt text with
  | some r => some r
  | none =>
    match searchFirst xY4KanjiAt text with
    | some r => some r
    | none =>
      match searchFirst xEraAt text with
      | some r => some r
      | none =>
        match searchFirst xMdKanjiAt text with
        | some r => some r
        | none => searchFirst xMdSlashAt text

/-- Outcome type of `dateutil.parser.parse` (an external collaborator): it
can raise, return `None`, or return a datetime. -/
abbrev DUParse := Str → Except Unit (Option PyDt)

/-- Offset applied by `.astimezone(JST)`: JST is UTC+9 hours, in seconds. -/
def jstOffsetSec : Int := 9 * 3600

/-- Absolute UTC instant of a parsed datetime; a naive datetime is first
reinterpreted as UTC (`dt.replace(tzinfo=timezone.utc)`, main.py line 117). -/
def toUtcInstant (dt : PyDt) : Int := dt.wallSec - (dt.tzOffsetSec.getD 0)

/-- `parse_datetime_jst` of main.py: normalize the shape, hand the result
to the general parser, reinterpret a naive result as UTC, convert to JST.
The result is the JST wall-clock instant in seconds; `none` models the
Python `None` returned for every failure. -/
def parse_datetime_jst (dparse : DUParse) (now : PyDt) (text : Option Str) : Option Int :=
  match text with
  | none => none
  | some s =>
    if s.isEmpty then none
    else
      match dparse (normalize_date_text s now) with
      | .error _ => none
      | .ok none => none
      | .ok (some dt) => some (toUtcInstant dt + jstOffsetSec)

/-- The properties of one record page, as built by `build_properties`. -/
structure NotionRec where
  title : Str
  url : Str
  agency : Str
  key : Str
  publishedAt : Option Str
  fetchedAt : Str
  itemType : Str
  deriving DecidableEq

inductive UpsertRes where
  | created
  | updated
  deriving DecidableEq

abbrev Store := List NotionRec

/-- The `PublishedAt` property value: included only when truthy
(notion_client_util.py line 67). -/
def publishedProp : Option Str → Option Str
  | some p => if strTruthy p then some p else none
  | none => none

/-- `build_properties` of notion_client_util.py: the stored `Title` is the
title truncated to its first 200 characters, the stored `Key` is the key
(defaulted to the url when falsy) truncated to its first 2000 characters;
`PublishedAt` is included only when truthy. -/
def build_properties (title url agency : Str) (published_at_iso : Option Str)
    (fetched_at_iso : Str) (item_type : Str) (key : Option Str) : NotionRec :=
  let k := match key with
    | some s => if strTruthy s then s else url
    | none => url
  { title := pyTake title 200
    url := url
    agency := agency
    key := pyTake k 2000
    publishedAt := publishedProp published_at_iso
    fetchedAt := fetched_at_iso
    itemType := item_type }

/-- `find_page_by_key` of notion_client_util.py: the first page whose
`Key` property equals the given key exactly (`page_size=1`); the found
page is identified by its index in the store. -/
def find_page_by_key (store : Store) (key : Str) : Option Nat :=
  store.findIdx? (fun r => r.key == key)

/-- `upsert_page` of notion_client_util.py: look up an existing page by
the full url, then update the found page in place or create a new one.
`fetched_at_iso` models the `datetime.now(JST).isoformat()` taken inside
the call. -/
def upsert_page (store : Store) (title url agency : Str)
    (published_at_iso : Option Str) (item_type : Str) (fetched_at_iso : Str) :
    UpsertRes × Store :=
  let key := url
  let props := build_properties title url agency published_at_iso fetched_at_iso item_type (some key)
  match find_page_by_key store key with
  | some i => (.updated, store.set i props)
  | none => (.created, store ++ [props])

/-- Python `needle in haystack` on strings (substring test). -/
def containsSeq (needle : Str) : Str → Bool
  | [] => needle.isEmpty
  | c :: rest => needle.isPrefixOf (c :: rest) || containsSeq needle rest

/-- Python `str.lower()`. -/
def pyLower (s : Str) : Str := s.map Char.toLower

/-- `looks_like_rss_url` of main.py. -/
def looks_like_rss_url (url : Str) : Bool :=
  let u := pyLower url
  (".rss".data.isSuffixOf u || ".rdf".data.isSuffixOf u || ".xml".data.isSuffixOf u)
    || containsSeq "rss".data u

/-- Python `p.rstrip("/")`. -/
def rstripSlashes (s : Str) : Str := (s.reverse.dropWhile (fun c => c == '/')).reverse

/-- Python `p.split("/")[-1]`: the segment after the last slash (the whole
string when there is no slash). -/
def lastSlashSeg (s : Str) : Str := (s.reverse.takeWhile (fun c => !(c == '/'))).reverse

/-- Fallback branch of `normalize_title`: last non-empty path segment of
the link, or the whole link when the path is empty, truncated to 200. -/
def normalize_title_fallback (urlPath : Str → Str) (fallback_url : Str) : Str :=
  let p := rstripSlashes (urlPath fallback_url)
  pyTake (if strTruthy p then lastSlashSeg p else fallback_url) 200

/-- `normalize_title` of main.py; `urlPath` models `urlparse(url).path`. -/
def normalize_title (urlPath : Str → Str) (title : Option Str) (fallback_url : Str) : Str :=
  match title with
  | some t =>
    if strTruthy (pyStrip t) then pyTake (pyStrip t) 200
    else normalize_title_fallback urlPath fallback_url
  | none => normalize_title_fallback urlPath fallback_url

/-- The run's half-open time window in JST wall-clock seconds. -/
structure TimeWin where
  startT : Int
  endT : Int
  deriving DecidableEq

/-- Main.py line 281: `datetime.now(JST).replace(hour=0, minute=0,
second=0, microsecond=0)` on JST wall-clock seconds. -/
def jstMidnight (nowWall : Int) : Int := nowWall - nowWall % 86400

/-- Main.py lines 281-282: the window runs from yesterday 00:00 to today
00:00, `timedelta(days=1)` being 86400 seconds. -/
def mkWindow (today0 : Int) : TimeWin := ⟨today0 - 86400, today0⟩

/-- The orchestrator's per-item classification (main.py lines 322-330). -/
inductive ItemDisp where
  | forwarded
  | skippedNodate
  | skippedTime
  deriving DecidableEq

/-- One candidate item as produced by either adapter. -/
structure RawItem where
  title : Option Str
  link : Str
  published : Option Str
  deriving DecidableEq

/-- Per-item branch of the main loop: unparseable date, outside-window, or
forwarded to the reconciler; `pdjF` is `parse_datetime_jst` with its
ambient `datetime.now(JST)` and dateutil parser. -/
def classifyItem (pdjF : Option Str → Option Int) (w : TimeWin)
    (published : Option Str) : ItemDisp :=
  match pdjF published with
  | none => .skippedNodate
  | some t => if w.startT ≤ t ∧ t < w.endT then .forwarded else .skippedTime

/-- The run-level counters reported by the summary line. -/
structure RunCounts where
  created : Nat
  updated : Nat
  skippedNodate : Nat
  skippedTime : Nat
  errors : Nat
  deriving DecidableEq

def RunCounts.zero : RunCounts := ⟨0, 0, 0, 0, 0⟩

def RunCounts.add (a b : RunCounts) : RunCounts :=
  ⟨a.created + b.created, a.updated + b.updated,
    a.skippedNodate + b.skippedNodate, a.skippedTime + b.skippedTime,
    a.errors + b.errors⟩

/-- The counter contribution of one hard fetch failure. -/
def oneError : RunCounts := ⟨0, 0, 0, 0, 1⟩

/-- External collaborators of the orchestrator, fixed for one run. -/
structure MainEnv where
  pdjF : Option Str → Option Int
  isoFmt : Int → Str
  urlPath : Str → Str
  fetchedAtIso : Str
  win : TimeWin

/-- One iteration of the item loop of `main` (lines 322-350). -/
def mainItemStep (env : MainEnv) (muni : Str) (acc : RunCounts × Store)
    (it : RawItem) : RunCounts × Store :=
  match env.pdjF it.published with
  | none => ({ acc.1 with skippedNodate := acc.1.skippedNodate + 1 }, acc.2)
  | some t =>
    if env.win.startT ≤ t ∧ t < env.win.endT then
      let title := normalize_title env.urlPath it.title it.link
      let (res, st) := upsert_page acc.2 title it.link muni (some (env.isoFmt t))
        "RSS".data env.fetchedAtIso
      match res with
      | .created => ({ acc.1 with created := acc.1.created + 1 }, st)
      | .updated => ({ acc.1 with updated := acc.1.updated + 1 }, st)
    else ({ acc.1 with skippedTime := acc.1.skippedTime + 1 }, acc.2)

/-- The item loop of `main` for one source. -/
def processItems (env : MainEnv) (muni : Str) (items : List RawItem)
    (store : Store) : RunCounts × Store :=
  items.foldl (mainItemStep env muni) (RunCounts.zero, store)

/-- What a fetch would do for this run: return items or raise. -/
inductive FetchOutcome where
  | ok (items : List RawItem)
  | exc
  deriving DecidableEq

/-- One configured source row of sources.csv. -/
structure SourceCfg where
  muni : Str
  url : Str
  deriving DecidableEq

/-- Network behavior of one source for this run: what the feed fetch and
the page fetch would each return (or raise). -/
structure SrcNet where
  rss : FetchOutcome
  html : FetchOutcome
  deriving DecidableEq

/-- Adapter selection for one source (main.py lines 299-318): feed first
when the url looks feed-like (a raised feed fetch yields `[]` and falls
through), page fallback otherwise; `none` means the page fetch raised, a
hard failure for this source. -/
def sourceItems (cfg : SourceCfg) (net : SrcNet) : Option (List RawItem) :=
  let rssItems : List RawItem :=
    if looks_like_rss_url cfg.url then
      match net.rss with
      | .ok l => l
      | .exc => []
    else []
  if rssItems.isEmpty then
    match net.html with
    | .ok l => some l
    | .exc => none
  else some rssItems

/-- Whole-source processing: one iteration of the source loop of `main`.
A hard fetch failure contributes one error and nothing else. -/
def processSource (env : MainEnv) (src : SourceCfg × SrcNet) (store : Store) :
    RunCounts × Store :=
  match sourceItems src.1 src.2 with
  | none => (oneError, store)
  | some items => processItems env src.1.muni items store

/-- The source loop of `main`: accumulates the run-level counters and
threads the record store; no failure aborts the loop (counter updates are
associative-commutative increments, so the running sum of the loop equals
this right-fold of per-source contributions). -/
def runMain (env : MainEnv) : List (SourceCfg × SrcNet) → Store → RunCounts × Store
  | [], store => (RunCounts.zero, store)
  | src :: rest, store =>
    let (c, st1) := processSource env src store
    let (cr, st2) := runMain env rest st1
    (c.add cr, st2)

/-- A `<time>` element: its optional `datetime` attribute and its text. -/
structure TimeEl where
  datetimeAttr : Option Str
  text : Str
  deriving DecidableEq

/-- Python `time_el.get("datetime") or time_el.get_text(" ", strip=True)`. -/
def timeRaw (te : TimeEl) : Str :=
  match te.datetimeAttr with
  | some s => if strTruthy s then s else te.text
  | none => te.text

/-- One `<a href>` candidate as the page adapter consults it:
`textTrim` is `a.get_text(" ", strip=True)`, `parentText` is the parent
element's visible text (`none` when the anchor has no parent), and the
two time fields are `a.parent.find("time")` and `a.find("time")`. -/
structure Anchor where
  href : Option Str
  textTrim : Str
  parentText : Option Str
  parentTime : Option TimeEl
  selfTime : Option TimeEl
  deriving DecidableEq

/-- Page-level inputs of one `fetch_html_items` call: the page url, the
url resolver (`urllib.parse.urljoin`), the page-level meta date contents,
the detail-page date fetcher (`fetch_detail_date`, which returns `None`
both on failure and when no date is found there), the item limit and the
detail-date budget. -/
structure PageEnv where
  pageUrl : Str
  ujoin : Str → Str → Str
  metaModified : Option Str
  metaPublished : Option Str
  detail : Str → Option Str
  limitN : Nat
  budget : Nat

/-- Listing-page meta fallback (main.py lines 259-264): modified-time
first, then published-time, only truthy contents count. -/
def pageMeta (env : PageEnv) : Option Str :=
  if optTruthy env.metaModified then env.metaModified
  else if optTruthy env.metaPublished then env.metaPublished
  else none

/-- The listing-page date cascade for one anchor (main.py lines 239-264):
surrounding text through `extract_date_text`, then a nearby `<time>`
element, then the page-level meta fields. -/
def listingDate (env : PageEnv) (a : Anchor) : Option Str :=
  let title := a.textTrim
  let around := pyStrip ((match a.parentText with | some t => t | none => []) ++ ' ' :: title)
  let d0 := extract_date_text around
  let d1 :=
    if optTruthy d0 then d0
    else
      match (match a.parentTime with | some te => some te | none => a.selfTime) with
      | some te => some (timeRaw te)
      | none => d0
  if optTruthy d1 then d1
  else
    match pageMeta env with
    | some c => some c
    | none => d1

/-- Loop state of `fetch_html_items`: the collected items, the intra-fetch
seen-link set, the consumed detail budget, and (for specification
purposes only) the log of detail-page requests actually made. -/
structure FetchSt where
  items : List RawItem
  seen : List Str
  detailUsed : Nat
  detailCalls : List Str
  deriving DecidableEq

def initFetchSt : FetchSt := ⟨[], [], 0, []⟩

/-- One iteration of the anchor loop of `fetch_html_items` (main.py lines
217-271): limit check, href and self-link filters, seen-set insertion,
title-length filter, the listing date cascade, and the budgeted
detail-page rescue which consumes one budget unit per attempt whether or
not a date is recovered. -/
def stepAnchor (env : PageEnv) (st : FetchSt) (a : Anchor) : FetchSt :=
  if env.limitN ≤ st.items.length then st
  else
    match a.href with
    | none => st
    | some href =>
      let link := env.ujoin env.pageUrl href
      if (env.pageUrl ++ ['#']).isPrefixOf link || link == env.pageUrl then st
      else if st.seen.contains link then st
      else
        let st1 : FetchSt := { st with seen := link :: st.seen }
        let title := a.textTrim
        if !strTruthy title || title.length < 2 then st1
        else
          let d2 := listingDate env a
          if !optTruthy d2 && st1.detailUsed < env.budget then
            { st1 with
              items := st1.items ++ [⟨some title, link, env.detail link⟩]
              detailUsed := st1.detailUsed + 1
              detailCalls := st1.detailCalls ++ [link] }
          else
            { st1 with items := st1.items ++ [⟨some title, link, d2⟩] }

/-- `fetch_html_items` of main.py over a list of anchor candidates. -/
def fetch_html_items (env : PageEnv) (anchors : List Anchor) : FetchSt :=
  anchors.foldl (stepAnchor env) initFetchSt

/-! ### General helper lemmas -/

theorem dropWhile_eq_self_of_all {p : Char → Bool} {l : Str}
    (h : ∀ c ∈ l, p c = false) : l.dropWhile p = l := by
  cases l with
  | nil => rfl
  | cons a t => simp [List.dropWhile_cons, h a (by simp)]

theorem pyStrip_eq_self {l : Str} (h : ∀ c ∈ l, isWsCh c = false) : pyStrip l = l := by
  unfold pyStrip
  rw [dropWhile_eq_self_of_all h, dropWhile_eq_self_of_all, List.reverse_reverse]
  intro c hc
  exact h c (List.mem_reverse.mp hc)

theorem digit_not_ws {c : Char} (h : isDigitCh c = true) : isWsCh c = false := by
  simp only [isDigitCh, Bool.and_eq_true, decide_eq_true_eq] at h
  simp only [isWsCh, Bool.or_eq_false_iff, beq_eq_false_iff_ne, ne_eq]
  omega

theorem digit_ne {c x : Char} (hc : isDigitCh c = true) (hx : isDigitCh x = false) :
    (c = x) = False := by
  apply eq_false
  intro he
  subst he
  rw [hc] at hx
  cases hx

theorem searchFirst_cons_some {α : Type} {m : Str → Option α} {c : Char} {cs : Str} {r : α}
    (h : m (c :: cs) = some r) : searchFirst m (c :: cs) = some r := by
  simp [searchFirst, h]

theorem searchFirst_eq_none_of {α : Type} {m : Str → Option α} {p : Char → Prop}
    (hm : ∀ cs r, m cs = some r → ∃ x ∈ cs, p x) :
    ∀ l : Str, (∀ x ∈ l, ¬ p x) → searchFirst m l = none := by
  intro l
  induction l with
  | nil =>
    intro _
    cases hml : m [] with
    | none => simpa [searchFirst] using hml
    | some r =>
      obtain ⟨x, hx, _⟩ := hm [] r hml
      exact absurd hx (List.not_mem_nil x)
  | cons a t ih =>
    intro hl
    cases hml : m (a :: t) with
    | some r =>
      obtain ⟨x, hx, hpx⟩ := hm _ r hml
      exact absurd hpx (hl x hx)
    | none =>
      simp only [searchFirst, hml]
      exact ih (fun x hx => hl x (List.mem_cons_of_mem a hx))

theorem searchFirst_some_ex {α : Type} {m : Str → Option α} :
    ∀ {l : Str} {r : α}, searchFirst m l = some r → ∃ t, t <:+ l ∧ m t = some r := by
  intro l
  induction l with
  | nil =>
    intro r h
    exact ⟨[], List.suffix_refl [], by simpa [searchFirst] using h⟩
  | cons a t ih =>
    intro r h
    cases hml : m (a :: t) with
    | some r2 =>
      have h2 : r2 = r := by simpa [searchFirst, hml] using h
      exact ⟨a :: t, List.suffix_refl _, by rw [hml, h2]⟩
    | none =>
      have h2 : searchFirst m t = some r := by simpa [searchFirst, hml] using h
      obtain ⟨u, hu, hmu⟩ := ih h2
      exact ⟨u, hu.trans (List.suffix_cons a t), hmu⟩

theorem searchFirst_ne_none_self {α : Type} {m : Str → Option α} {l : Str}
    (h : m l ≠ none) : searchFirst m l ≠ none := by
  cases l with
  | nil => simpa [searchFirst] using h
  | cons a t =>
    cases hml : m (a :: t) with
    | some r => simp [searchFirst, hml]
    | none => exact absurd hml h

theorem searchFirst_ne_none_append {α : Type} {m : Str → Option α} :
    ∀ (pre suf : Str), m suf ≠ none → searchFirst m (pre ++ suf) ≠ none := by
  intro pre
  induction pre with
  | nil =>
    intro suf h
    simpa using searchFirst_ne_none_self h
  | cons a t ih =>
    intro suf h
    show searchFirst m (a :: (t ++ suf)) ≠ none
    cases hml : m (a :: (t ++ suf)) with
    | some r => simp [searchFirst, hml]
    | none =>
      simp only [searchFirst, hml]
      exact ih suf h

theorem chExact_some {x : Char} {cs r : Str} (h : chExact x cs = some r) : cs = x :: r := by
  cases cs with
  | nil => exact absurd h (by simp [chExact])
  | cons c t =>
    by_cases hcx : c = x
    · subst hcx
      simp [chExact] at h
      rw [h]
    · simp [chExact, hcx] at h

theorem digits12_exact {ms : Str} {x : Char} {rest : Str}
    (h1 : ms.length = 1 ∨ ms.length = 2) (h2 : ∀ c ∈ ms, isDigitCh c = true)
    (hx : isDigitCh x = false) :
    digits12 (ms ++ x :: rest) = some (ms, x :: rest) := by
  rcases ms with _ | ⟨a, _ | ⟨b, _ | ⟨c, t⟩⟩⟩
  · simp at h1
  · have ha := h2 a (by simp)
    simp [digits12, ha, hx]
  · have ha := h2 a (by simp)
    have hb := h2 b (by simp)
    simp [digits12, ha, hb]
  · simp at h1

theorem digits12_end {ds : Str}
    (h1 : ds.length = 1 ∨ ds.length = 2) (h2 : ∀ c ∈ ds, isDigitCh c = true) :
    digits12 ds = some (ds, []) := by
  rcases ds with _ | ⟨a, _ | ⟨b, _ | ⟨c, t⟩⟩⟩
  · simp at h1
  · have ha := h2 a (by simp)
    simp [digits12, ha]
  · have ha := h2 a (by simp)
    have hb := h2 b (by simp)
    simp [digits12, ha, hb]
  · simp at h1

theorem wsStar_cons_nows {c : Char} {r : Str} (h : isWsCh c = false) :
    wsStar (c :: r) = ([], c :: r) := by
  simp [wsStar, h]

theorem matchEraNAt_mem {cs : Str} {r : Nat × Nat × Nat} (h : matchEraNAt cs = some r) :
    '令' ∈ cs := by
  unfold matchEraNAt at h
  cases h0 : chExact '令' cs with
  | none => rw [h0] at h; simp at h
  | some r0 =>
    rw [chExact_some h0]
    exact List.mem_cons_self _ _


theorem digits12_suffix {cs p r : Str} (h : digits12 cs = some (p, r)) : r <:+ cs := by
  rcases cs with _ | ⟨a, _ | ⟨b, t⟩⟩
  · simp [digits12] at h
  · simp only [digits12] at h
    split at h
    · simp only [Option.some.injEq, Prod.mk.injEq] at h
      rw [← h.2]
      exact List.nil_suffix
    · cases h
  · simp only [digits12] at h
    split at h
    · split at h
      · simp only [Option.some.injEq, Prod.mk.injEq] at h
        rw [← h.2]
        exact ⟨[a, b], rfl⟩
      · simp only [Option.some.injEq, Prod.mk.injEq] at h
        rw [← h.2]
        exact ⟨[a], rfl⟩
    · cases h

theorem digits4_suffix {cs p r : Str} (h : digits4 cs = some (p, r)) : r <:+ cs := by
  rcases cs with _ | ⟨a, _ | ⟨b, _ | ⟨c, _ | ⟨d, t⟩⟩⟩⟩
  · simp [digits4] at h
  · simp [digits4] at h
  · simp [digits4] at h
  · simp [digits4] at h
  · simp only [digits4] at h
    split at h
    · simp only [Option.some.injEq, Prod.mk.injEq] at h
      rw [← h.2]
      exact ⟨[a, b, c, d], rfl⟩
    · cases h

theorem chSlashDash_some {cs : Str} {s : Char} {r : Str}
    (h : chSlashDash cs = some (s, r)) : cs = s :: r ∧ (s = '/' ∨ s = '-') := by
  cases cs with
  | nil => exact absurd h (by simp [chSlashDash])
  | cons c t =>
    by_cases hc : c = '/' ∨ c = '-'
    · simp only [chSlashDash, if_pos hc, Option.some.injEq, Prod.mk.injEq] at h
      obtain ⟨h1, h2⟩ := h
      subst h1
      subst h2
      exact ⟨rfl, hc⟩
    · simp [chSlashDash, hc] at h

theorem matchY4KanjiAt_mem {cs : Str} {r : Nat × Nat × Nat} (h : matchY4KanjiAt cs = some r) :
    '年' ∈ cs := by
  unfold matchY4KanjiAt at h
  cases h0 : digits4 cs with
  | none => rw [h0] at h; simp at h
  | some pr =>
    obtain ⟨p, r1⟩ := pr
    rw [h0] at h
    simp only [Option.bind_eq_bind', Option.some_bind'] at h
    cases h1 : chExact '年' r1 with
    | none => rw [h1] at h; simp at h
    | some r2 =>
      have hr1 : r1 = '年' :: r2 := chExact_some h1
      have hsuf : r1 <:+ cs := digits4_suffix h0
      exact hsuf.subset (hr1 ▸ List.mem_cons_self '年' r2)

theorem matchY4SlashAt_mem {cs : Str} {r : Nat × Nat × Nat} (h : matchY4SlashAt cs = some r) :
    ∃ x ∈ cs, x = '/' ∨ x = '-' := by
  unfold matchY4SlashAt at h
  cases h0 : digits4 cs with
  | none => rw [h0] at h; simp at h
  | some pr =>
    obtain ⟨p, r1⟩ := pr
    rw [h0] at h
    simp only [Option.bind_eq_bind', Option.some_bind'] at h
    cases h1 : chSlashDash r1 with
    | none => rw [h1] at h; simp at h
    | some sr =>
      obtain ⟨s, r2⟩ := sr
      obtain ⟨hr1, hs⟩ := chSlashDash_some h1
      have hsuf : r1 <:+ cs := digits4_suffix h0
      exact ⟨s, hsuf.subset (hr1 ▸ List.mem_cons_self s r2), hs⟩

theorem matchMdKanjiAt_mem {cs : Str} {r : Nat × Nat} (h : matchMdKanjiAt cs = some r) :
    '月' ∈ cs := by
  unfold matchMdKanjiAt at h
  cases h0 : digits12 cs with
  | none => rw [h0] at h; simp at h
  | some pr =>
    obtain ⟨p, r1⟩ := pr
    rw [h0] at h
    simp only [Option.bind_eq_bind', Option.some_bind'] at h
    cases h1 : chExact '月' r1 with
    | none => rw [h1] at h; simp at h
    | some r2 =>
      have hr1 : r1 = '月' :: r2 := chExact_some h1
      have hsuf : r1 <:+ cs := digits12_suffix h0
      exact hsuf.subset (hr1 ▸ List.mem_cons_self '月' r2)

/-! ### C2: the half-open time window -/

/-- C2: with the run's window built as local midnight yesterday to local
midnight today, an item whose published instant is `t` is forwarded iff
`start ≤ t < end`; a rejected instant is classified skipped_time;
`t = start` is always accepted, `t = end` always rejected; the window
satisfies `start < end` and both bounds are midnight-aligned. -/
theorem c2_window_half_open (nowWall t : Int) (pdjF : Option Str → Option Int)
    (pub : Option Str) (h : pdjF pub = some t) :
    (classifyItem pdjF (mkWindow (jstMidnight nowWall)) pub = .forwarded ↔
      jstMidnight nowWall - 86400 ≤ t ∧ t < jstMidnight nowWall)
    ∧ (¬(jstMidnight nowWall - 86400 ≤ t ∧ t < jstMidnight nowWall) →
        classifyItem pdjF (mkWindow (jstMidnight nowWall)) pub = .skippedTime)
    ∧ (t = (mkWindow (jstMidnight nowWall)).startT →
        classifyItem pdjF (mkWindow (jstMidnight nowWall)) pub = .forwarded)
    ∧ (t = (mkWindow (jstMidnight nowWall)).endT →
        classifyItem pdjF (mkWindow (jstMidnight nowWall)) pub = .skippedTime)
    ∧ (mkWindow (jstMidnight nowWall)).startT < (mkWindow (jstMidnight nowWall)).endT
    ∧ (mkWindow (jstMidnight nowWall)).startT % 86400 = 0
    ∧ (mkWindow (jstMidnight nowWall)).endT % 86400 = 0
    ∧ (∀ (env : MainEnv) (muni : Str) (acc : RunCounts × Store) (it : RawItem),
        env.pdjF = pdjF → env.win = mkWindow (jstMidnight nowWall) → it.published = pub →
        ¬(jstMidnight nowWall - 86400 ≤ t ∧ t < jstMidnight nowWall) →
        mainItemStep env muni acc it
          = ({ acc.1 with skippedTime := acc.1.skippedTime + 1 }, acc.2)) := by
  refine ⟨?_, ?_, ?_, ?_, ?_, ?_, ?_, ?_⟩
  · by_cases hin : jstMidnight nowWall - 86400 ≤ t ∧ t < jstMidnight nowWall
    · simp [classifyItem, mkWindow, h, hin]
    · simp [classifyItem, mkWindow, h, hin]
  · intro hn
    simp only [classifyItem, mkWindow, h]
    rw [if_neg hn]
  · intro ht
    subst ht
    simp only [classifyItem, mkWindow, h]
    rw [if_pos (by constructor <;> omega)]
  · intro ht
    subst ht
    simp only [classifyItem, mkWindow, h]
    rw [if_neg (by omega)]
  · simp only [mkWindow]
    omega
  · simp only [mkWindow, jstMidnight]
    omega
  · simp only [mkWindow, jstMidnight]
    omega
  · intro env muni acc it he1 he2 he3 hout
    unfold mainItemStep
    rw [he1, he3, h, he2]
    simp only [mkWindow]
    rw [if_neg hout]

/-- Witness for C2 at a concrete input: `now` = 100 seconds past JST
midnight, an item dated one second before that midnight is forwarded, an
item dated exactly at the window end is rejected as skipped_time. -/
theorem c2_window_half_open_witness :
    (classifyItem (fun _ => some (-1)) (mkWindow (jstMidnight 100)) none = .forwarded ↔
      jstMidnight 100 - 86400 ≤ -1 ∧ -1 < jstMidnight 100)
    ∧ (mkWindow (jstMidnight 100)).startT < (mkWindow (jstMidnight 100)).endT := by
  have h := c2_window_half_open 100 (-1) (fun _ => some (-1)) none rfl
  exact ⟨h.1, h.2.2.2.2.1⟩

/-! ### C6: totality and failure behavior of the date normalizer -/

/-- C6: `parse_datetime_jst` returns `none` exactly for the failure cases
(absent input, empty input, general parser returned nothing, general
parser raised); a successful parse yields a full instant converted to the
local timezone, a parse without explicit offset being interpreted as UTC
first; no partial or guessed instant is ever produced for a failure. -/
theorem c6_parse_failure_contract (dparse : DUParse) (now : PyDt) (text : Option Str) :
    (parse_datetime_jst dparse now text = none ↔
      text = none ∨ text = some [] ∨
        ∃ s, text = some s ∧ (dparse (normalize_date_text s now) = .error () ∨
          dparse (normalize_date_text s now) = .ok none))
    ∧ (∀ s dt, text = some s → s ≠ [] →
        dparse (normalize_date_text s now) = .ok (some dt) →
        parse_datetime_jst dparse now text = some (toUtcInstant dt + jstOffsetSec)
          ∧ (dt.tzOffsetSec = none →
            parse_datetime_jst dparse now text = some (dt.wallSec + jstOffsetSec))) := by
  constructor
  · cases text with
    | none => simp [parse_datetime_jst]
    | some s =>
      cases s with
      | nil => simp [parse_datetime_jst]
      | cons a s2 =>
        cases hd : dparse (normalize_date_text (a :: s2) now) with
        | error e =>
          cases e
          simp [parse_datetime_jst, hd]
        | ok o =>
          cases o with
          | none => simp [parse_datetime_jst, hd]
          | some dt => simp [parse_datetime_jst, hd]
  · intro s dt hts hne hd
    subst hts
    cases s with
    | nil => exact absurd rfl hne
    | cons a s2 =>
      constructor
      · simp [parse_datetime_jst, hd]
      · intro htz
        simp [parse_datetime_jst, hd, toUtcInstant, htz]

/-- Witness for C6: a parser that returns a naive datetime with wall
clock 100 makes `parse_datetime_jst` yield `100 + 32400` (UTC assumed,
then converted to JST). -/
theorem c6_parse_failure_contract_witness :
    parse_datetime_jst (fun _ => Except.ok (some ⟨2026, 1, 100, none⟩))
      ⟨2026, 1, 0, none⟩ (some ['x']) = some (100 + jstOffsetSec) := by
  have h := (c6_parse_failure_contract (fun _ => Except.ok (some ⟨2026, 1, 100, none⟩))
    ⟨2026, 1, 0, none⟩ (some ['x'])).2 ['x'] ⟨2026, 1, 100, none⟩ rfl (by simp) rfl
  exact h.2 rfl

/-! ### C9: key truncation asymmetry between storage and lookup -/

/-- C9: an upsert stores the identity key truncated to its first 2000
characters and the title truncated to its first 200 characters, while the
duplicate lookup queries with the full untruncated link; hence for a link
of at most 2000 characters the stored key equals the lookup key (a second
upsert of the same link updates), and for a longer link the stored key
differs from the lookup key (a second upsert creates again). -/
theorem c9_key_truncation (title url agency : Str) (pub : Option Str)
    (ty f1 f2 : Str) :
    ((upsert_page [] title url agency pub ty f1).2.map (fun r => r.key)
        = [pyTake url 2000])
    ∧ ((upsert_page [] title url agency pub ty f1).2.map (fun r => r.title)
        = [pyTake title 200])
    ∧ (url.length ≤ 2000 → pyTake url 2000 = url)
    ∧ (2000 < url.length → pyTake url 2000 ≠ url)
    ∧ (url.length ≤ 2000 →
        (upsert_page (upsert_page [] title url agency pub ty f1).2
          title url agency pub ty f2).1 = .updated)
    ∧ (2000 < url.length →
        (upsert_page (upsert_page [] title url agency pub ty f1).2
          title url agency pub ty f2).1 = .created) := by
  have hstore : (upsert_page [] title url agency pub ty f1).2
      = [build_properties title url agency pub f1 ty (some url)] := by
    simp [upsert_page, find_page_by_key]
  have hkey : (build_properties title url agency pub f1 ty (some url)).key
      = pyTake url 2000 := by
    simp [build_properties]
  refine ⟨?_, ?_, ?_, ?_, ?_, ?_⟩
  · rw [hstore]
    simp [hkey]
  · rw [hstore]
    simp [build_properties]
  · intro h
    exact List.take_of_length_le h
  · intro h he
    have hl := congrArg List.length he
    simp only [pyTake, List.length_take] at hl
    omega
  · intro h
    have hk2 : ((build_properties title url agency pub f1 ty (some url)).key == url) = true := by
      rw [hkey]
      simp [pyTake, List.take_of_length_le h]
    rw [hstore]
    simp [upsert_page, find_page_by_key, List.findIdx?_cons, hk2]
  · intro h
    have hk2 : ((build_properties title url agency pub f1 ty (some url)).key == url) = false := by
      rw [hkey]
      refine beq_eq_false_iff_ne.mpr ?_
      intro he
      have hl := congrArg List.length he
      simp only [pyTake, List.length_take] at hl
      omega
    rw [hstore]
    simp [upsert_page, find_page_by_key, List.findIdx?_cons, hk2]

/-- Witness for C9 at a short concrete link. -/
theorem c9_key_truncation_witness :
    pyTake "http://x/a".data 2000 = "http://x/a".data
    ∧ (upsert_page (upsert_page [] ['t'] "http://x/a".data ['g'] none ['R'] ['f']).2
        ['t'] "http://x/a".data ['g'] none ['R'] ['f']).1 = .updated := by
  have h := c9_key_truncation ['t'] "http://x/a".data ['g'] none ['R'] ['f'] ['f']
  exact ⟨h.2.2.1 (by decide), h.2.2.2.2.1 (by decide)⟩

/-! ### C1: reconciler create-then-update behavior -/

theorem set_append_singleton {l : Store} {x y : NotionRec} :
    (l ++ [x]).set l.length y = l ++ [y] := by
  rw [List.set_append]
  simp

/-- C1 (amended): for an item whose link has at most 2000 characters,
upserting it twice against a store holding no record for that link yields
Created then Updated; afterwards the store is the original plus exactly
one record for that key, whose agency and published instant equal the
second call's inputs and whose title is the second call's title truncated
to its first 200 characters. -/
theorem c1_upsert_idempotent (store : Store) (title url agency : Str)
    (pub : Option Str) (ty f1 f2 : Str)
    (hlen : url.length ≤ 2000)
    (hfresh : ∀ r ∈ store, (r.key == url) = false) :
    (upsert_page store title url agency pub ty f1).1 = .created
    ∧ (upsert_page (upsert_page store title url agency pub ty f1).2
        title url agency pub ty f2).1 = .updated
    ∧ (upsert_page (upsert_page store title url agency pub ty f1).2
        title url agency pub ty f2).2
      = store ++ [build_properties title url agency pub f2 ty (some url)]
    ∧ ((upsert_page (upsert_page store title url agency pub ty f1).2
        title url agency pub ty f2).2.filter (fun r => r.key == url)).map
          (fun r => (r.title, r.agency, r.publishedAt))
      = [(pyTake title 200, agency, publishedProp pub)] := by
  have hfind1 : find_page_by_key store url = none := by
    unfold find_page_by_key
    exact List.findIdx?_eq_none_iff.mpr hfresh
  have h1 : upsert_page store title url agency pub ty f1
      = (.created, store ++ [build_properties title url agency pub f1 ty (some url)]) := by
    simp [upsert_page, hfind1]
  have hkey : ∀ f, (build_properties title url agency pub f ty (some url)).key = url := by
    intro f
    simp [build_properties, pyTake, List.take_of_length_le hlen]
  have hfind2 : find_page_by_key
      (store ++ [build_properties title url agency pub f1 ty (some url)]) url
      = some store.length := by
    unfold find_page_by_key
    rw [List.findIdx?_append]
    rw [List.findIdx?_eq_none_iff.mpr hfresh]
    simp [List.findIdx?_cons, hkey f1]
  have h2 : upsert_page (store ++ [build_properties title url agency pub f1 ty (some url)])
      title url agency pub ty f2
      = (.updated, store ++ [build_properties title url agency pub f2 ty (some url)]) := by
    simp only [upsert_page, hfind2]
    rw [set_append_singleton]
  refine ⟨?_, ?_, ?_, ?_⟩
  · rw [h1]
  · rw [h1, h2]
  · rw [h1, h2]
  · rw [h1, h2]
    simp only [List.filter_append]
    have hnil : store.filter (fun r => r.key == url) = [] :=
      List.filter_eq_nil_iff.mpr (by
        intro r hr
        simp [hfresh r hr])
    rw [hnil]
    simp [List.filter_cons, hkey f2, build_properties, pyTake, List.take_of_length_le hlen]

/-- Witness for C1 (amended) at a concrete short link on an empty store. -/
theorem c1_upsert_idempotent_witness :
    (upsert_page [] ['t'] "http://x/a".data ['g'] none ['R'] ['f']).1 = .created
    ∧ (upsert_page (upsert_page [] ['t'] "http://x/a".data ['g'] none ['R'] ['f']).2
        ['t'] "http://x/a".data ['g'] none ['R'] ['f']).1 = .updated := by
  have h := c1_upsert_idempotent [] ['t'] "http://x/a".data ['g'] none ['R'] ['f'] ['f']
    (by decide) (by intro r hr; cases hr)
  exact ⟨h.1, h.2.1⟩

/-- C1 counterexample: with a 2001-character link and an initially empty
store, the second identical upsert yields Created again rather than
Updated, and the store ends up holding two records with the same identity
key (the link truncated to 2000 characters), refuting the claim as stated
for links longer than 2000 characters. -/
theorem c1_counterexample :
    (upsert_page (upsert_page [] ['t'] (List.replicate 2001 'a') ['g'] none ['R'] ['f']).2
      ['t'] (List.replicate 2001 'a') ['g'] none ['R'] ['f']).1 = .created
    ∧ ((upsert_page (upsert_page [] ['t'] (List.replicate 2001 'a') ['g'] none ['R'] ['f']).2
        ['t'] (List.replicate 2001 'a') ['g'] none ['R'] ['f']).2.map (fun r => r.key))
      = [List.replicate 2000 'a', List.replicate 2000 'a'] := by
  have htake : pyTake (List.replicate 2001 'a') 2000 = List.replicate 2000 'a' := by
    show List.take 2000 (List.replicate 2001 'a') = List.replicate 2000 'a'
    rw [List.take_replicate]
    congr 1
  have hne : ((List.replicate 2000 'a' : Str) == List.replicate 2001 'a') = false := by
    refine beq_eq_false_iff_ne.mpr ?_
    intro he
    have hl := congrArg List.length he
    rw [List.length_replicate, List.length_replicate] at hl
    exact absurd hl (by decide)
  have hstore : (upsert_page [] ['t'] (List.replicate 2001 'a') ['g'] none ['R'] ['f']).2
      = [build_properties ['t'] (List.replicate 2001 'a') ['g'] none ['f'] ['R']
          (some (List.replicate 2001 'a'))] := by
    simp only [upsert_page, find_page_by_key, List.findIdx?_nil, List.nil_append]
  have hkey : (build_properties ['t'] (List.replicate 2001 'a') ['g'] none ['f'] ['R']
      (some (List.replicate 2001 'a'))).key = List.replicate 2000 'a' := by
    simp only [build_properties, ite_self]
    exact htake
  have hfind2 : find_page_by_key
      [build_properties ['t'] (List.replicate 2001 'a') ['g'] none ['f'] ['R']
        (some (List.replicate 2001 'a'))] (List.replicate 2001 'a') = none := by
    unfold find_page_by_key
    refine List.findIdx?_eq_none_iff.mpr ?_
    intro x hx
    rw [List.mem_singleton] at hx
    subst hx
    rw [hkey]
    exact hne
  constructor
  · rw [hstore]
    simp only [upsert_page, hfind2]
  · rw [hstore]
    simp only [upsert_page, hfind2, List.cons_append, List.nil_append,
      List.map_cons, List.map_nil, hkey]

/-! ### C7: adapter selection and per-source error isolation -/

theorem RunCounts.zero_add (a : RunCounts) : RunCounts.zero.add a = a := by
  cases a
  simp [RunCounts.add, RunCounts.zero]

theorem RunCounts.add_zero (a : RunCounts) : a.add RunCounts.zero = a := by
  cases a
  simp [RunCounts.add, RunCounts.zero]

theorem runMain_append (env : MainEnv) :
    ∀ (xs ys : List (SourceCfg × SrcNet)) (st : Store),
      runMain env (xs ++ ys) st
        = ((runMain env xs st).1.add (runMain env ys (runMain env xs st).2).1,
            (runMain env ys (runMain env xs st).2).2) := by
  intro xs
  induction xs with
  | nil =>
    intro ys st
    simp [runMain, RunCounts.zero_add]
  | cons x t ih =>
    intro ys st
    show runMain env (x :: (t ++ ys)) st = _
    rw [runMain, runMain]
    rcases hps : processSource env x st with ⟨c, st1⟩
    simp only [hps]
    rw [ih]
    rcases hr1 : runMain env t st1 with ⟨ct, st2⟩
    simp only [hr1]
    rcases hr2 : runMain env ys st2 with ⟨cy, st3⟩
    simp only [hr2]
    simp [RunCounts.add, Nat.add_assoc]

/-- C7: for a source whose endpoint is not feed-like, the feed adapter is
never consulted (the outcome does not depend on what it would return) and
the page adapter is used directly; a raising page fetch contributes zero
items and exactly one error, leaves the store untouched, and the rest of
the run is processed exactly as without that source (the run does not
abort). -/
theorem c7_nonfeed_error_isolation (env : MainEnv) :
    (∀ (cfg : SourceCfg) (r r2 : FetchOutcome) (hOut : FetchOutcome) (st : Store),
      looks_like_rss_url cfg.url = false →
      processSource env (cfg, ⟨r, hOut⟩) st = processSource env (cfg, ⟨r2, hOut⟩) st)
    ∧ (∀ (cfg : SourceCfg) (r : FetchOutcome) (st : Store),
      looks_like_rss_url cfg.url = false →
      processSource env (cfg, ⟨r, .exc⟩) st = (oneError, st))
    ∧ (∀ (pre post : List (SourceCfg × SrcNet)) (cfg : SourceCfg) (r : FetchOutcome)
        (st : Store),
      looks_like_rss_url cfg.url = false →
      runMain env (pre ++ (cfg, ⟨r, .exc⟩) :: post) st
        = ((runMain env pre st).1.add
            (oneError.add (runMain env post (runMain env pre st).2).1),
          (runMain env post (runMain env pre st).2).2)) := by
  have hexc : ∀ (cfg : SourceCfg) (r : FetchOutcome) (st : Store),
      looks_like_rss_url cfg.url = false →
      processSource env (cfg, ⟨r, .exc⟩) st = (oneError, st) := by
    intro cfg r st h
    simp [processSource, sourceItems, h]
  refine ⟨?_, hexc, ?_⟩
  · intro cfg r r2 hOut st h
    simp [processSource, sourceItems, h]
  · intro pre post cfg r st h
    rw [runMain_append]
    have hmid : runMain env ((cfg, ⟨r, .exc⟩) :: post) (runMain env pre st).2
        = (oneError.add (runMain env post (runMain env pre st).2).1,
            (runMain env post (runMain env pre st).2).2) := by
      rw [runMain]
      rw [hexc cfg r _ h]
    rw [hmid]

/-- Witness for C7: a run over two sources where the first is non-feed-like
and its page fetch raises; the second source is processed normally and the
error counter ends at exactly 1. -/
theorem c7_nonfeed_error_isolation_witness :
    runMain
      ⟨fun _ => none, fun _ => [], fun _ => [], [], ⟨0, 86400⟩⟩
      ([] ++ (⟨['a'], "http://x/news".data⟩, ⟨.ok [], .exc⟩)
        :: [(⟨['b'], "http://y/news".data⟩, ⟨.ok [], .ok []⟩)]) []
      = (⟨0, 0, 0, 0, 1⟩, []) := by
  have h := (c7_nonfeed_error_isolation
    ⟨fun _ => none, fun _ => [], fun _ => [], [], ⟨0, 86400⟩⟩).2.2
    [] [(⟨['b'], "http://y/news".data⟩, ⟨.ok [], .ok []⟩)]
    ⟨['a'], "http://x/news".data⟩ (.ok []) [] (by decide)
  rw [h]
  rfl

/-! ### C8: detail-page budget discipline -/

theorem stepAnchor_detail_inv (env : PageEnv) (st : FetchSt) (a : Anchor)
    (h1 : st.detailCalls.length = st.detailUsed) (h2 : st.detailUsed ≤ env.budget) :
    (stepAnchor env st a).detailCalls.length = (stepAnchor env st a).detailUsed
      ∧ (stepAnchor env st a).detailUsed ≤ env.budget := by
  unfold stepAnchor
  split
  · exact ⟨h1, h2⟩
  split
  · exact ⟨h1, h2⟩
  dsimp only
  split
  · exact ⟨h1, h2⟩
  split
  · exact ⟨h1, h2⟩
  split
  · exact ⟨h1, h2⟩
  split
  · rename_i hcond
    simp only [Bool.and_eq_true, decide_eq_true_eq] at hcond
    constructor
    · simp [h1]
    · dsimp only
      omega
  · exact ⟨h1, h2⟩

theorem fetch_detail_inv (env : PageEnv) :
    ∀ (anchors : List Anchor) (st : FetchSt),
      st.detailCalls.length = st.detailUsed → st.detailUsed ≤ env.budget →
      ((anchors.foldl (stepAnchor env) st).detailCalls.length
          = (anchors.foldl (stepAnchor env) st).detailUsed
        ∧ (anchors.foldl (stepAnchor env) st).detailUsed ≤ env.budget) := by
  intro anchors
  induction anchors with
  | nil =>
    intro st h1 h2
    exact ⟨h1, h2⟩
  | cons a t ih =>
    intro st h1 h2
    rw [List.foldl_cons]
    obtain ⟨g1, g2⟩ := stepAnchor_detail_inv env st a h1 h2
    exact ih _ g1 g2

/-- C8: within one page fetch, every detail-page request is logged and
consumes exactly one budget unit, so at most `detail_date_budget` detail
fetches happen per invocation; no attempt is made once the budget is
exhausted, none is made for a candidate whose listing cascade already
produced a date, and a failing detail fetch (returning nothing) still
consumes its budget unit and yields the candidate with an absent date
rather than raising. -/
theorem c8_detail_budget (env : PageEnv) :
    (∀ anchors : List Anchor,
      (fetch_html_items env anchors).detailCalls.length
          = (fetch_html_items env anchors).detailUsed
        ∧ (fetch_html_items env anchors).detailUsed ≤ env.budget)
    ∧ (∀ (st : FetchSt) (a : Anchor), env.budget ≤ st.detailUsed →
        (stepAnchor env st a).detailCalls = st.detailCalls
          ∧ (stepAnchor env st a).detailUsed = st.detailUsed)
    ∧ (∀ (st : FetchSt) (a : Anchor), optTruthy (listingDate env a) = true →
        (stepAnchor env st a).detailCalls = st.detailCalls
          ∧ (stepAnchor env st a).detailUsed = st.detailUsed)
    ∧ (∀ (st : FetchSt) (a : Anchor) (href : Str),
        ¬ env.limitN ≤ st.items.length →
        a.href = some href →
        ((env.pageUrl ++ ['#']).isPrefixOf (env.ujoin env.pageUrl href)
          || (env.ujoin env.pageUrl href) == env.pageUrl) = false →
        st.seen.contains (env.ujoin env.pageUrl href) = false →
        (!strTruthy a.textTrim || decide (a.textTrim.length < 2)) = false →
        optTruthy (listingDate env a) = false →
        st.detailUsed < env.budget →
        env.detail (env.ujoin env.pageUrl href) = none →
        stepAnchor env st a
          = { items := st.items ++ [⟨some a.textTrim, env.ujoin env.pageUrl href, none⟩]
              seen := env.ujoin env.pageUrl href :: st.seen
              detailUsed := st.detailUsed + 1
              detailCalls := st.detailCalls ++ [env.ujoin env.pageUrl href] }) := by
  refine ⟨?_, ?_, ?_, ?_⟩
  · intro anchors
    exact fetch_detail_inv env anchors initFetchSt rfl (Nat.zero_le _)
  · intro st a hbud
    unfold stepAnchor
    split
    · exact ⟨rfl, rfl⟩
    split
    · exact ⟨rfl, rfl⟩
    dsimp only
    split
    · exact ⟨rfl, rfl⟩
    split
    · exact ⟨rfl, rfl⟩
    split
    · exact ⟨rfl, rfl⟩
    split
    · rename_i hcond
      simp only [Bool.and_eq_true, decide_eq_true_eq] at hcond
      omega
    · exact ⟨rfl, rfl⟩
  · intro st a hdate
    unfold stepAnchor
    split
    · exact ⟨rfl, rfl⟩
    split
    · exact ⟨rfl, rfl⟩
    dsimp only
    split
    · exact ⟨rfl, rfl⟩
    split
    · exact ⟨rfl, rfl⟩
    split
    · exact ⟨rfl, rfl⟩
    split
    · rename_i hcond
      rw [hdate] at hcond
      simp at hcond
    · exact ⟨rfl, rfl⟩
  · intro st a href hlim hhref hsel hseen htitle hdate hbud hdet
    unfold stepAnchor
    rw [if_neg hlim, hhref]
    simp only [hsel, Bool.false_eq_true, if_false, hseen, htitle, hdate,
      Bool.not_false, Bool.true_and, hdet]
    rw [if_pos (decide_eq_true hbud)]

/-- Witness for C8: a two-anchor page where both candidates are undated
and the budget is 1: exactly one detail call is made (and logged), the
budget is exhausted after it, and the failing detail fetch leaves the
first candidate's date absent. -/
theorem c8_detail_budget_witness :
    ((fetch_html_items
        ⟨"u".data, fun _ h => h, none, none, fun _ => none, 50, 1⟩
        [⟨some "l1".data, "t1".data, none, none, none⟩,
          ⟨some "l2".data, "t2".data, none, none, none⟩]).detailCalls.length
      = (fetch_html_items
        ⟨"u".data, fun _ h => h, none, none, fun _ => none, 50, 1⟩
        [⟨some "l1".data, "t1".data, none, none, none⟩,
          ⟨some "l2".data, "t2".data, none, none, none⟩]).detailUsed)
    ∧ (fetch_html_items
        ⟨"u".data, fun _ h => h, none, none, fun _ => none, 50, 1⟩
        [⟨some "l1".data, "t1".data, none, none, none⟩,
          ⟨some "l2".data, "t2".data, none, none, none⟩]).detailUsed ≤ 1
    ∧ (stepAnchor ⟨"u".data, fun _ h => h, none, none, fun _ => none, 50, 1⟩
        initFetchSt ⟨some "l1".data, "t1".data, none, none, none⟩)
      = ⟨[⟨some "t1".data, "l1".data, none⟩], ["l1".data], 1, ["l1".data]⟩ := by
  have h := c8_detail_budget ⟨"u".data, fun _ h => h, none, none, fun _ => none, 50, 1⟩
  obtain ⟨w1, w2⟩ := h.1 [⟨some "l1".data, "t1".data, none, none, none⟩,
    ⟨some "l2".data, "t2".data, none, none, none⟩]
  have hs := h.2.2.2 initFetchSt ⟨some "l1".data, "t1".data, none, none, none⟩ "l1".data
    (by decide) rfl (by decide) (by decide) (by decide) (by decide) (by decide) rfl
  exact ⟨w1, w2, by rw [hs]; rfl⟩

/-! ### C10: seen-set insertion precedes the title filter -/

theorem contains_false_not_mem {l : List Str} {a : Str} (h : l.contains a = false) :
    a ∉ l := by
  intro hm
  rw [List.contains, List.elem_iff.mpr hm] at h
  cases h

theorem stepAnchor_nodup_inv (env : PageEnv) (st : FetchSt) (a : Anchor)
    (h1 : (st.items.map (fun it => it.link)).Nodup)
    (h2 : ∀ it ∈ st.items, it.link ∈ st.seen) :
    ((stepAnchor env st a).items.map (fun it => it.link)).Nodup
      ∧ ∀ it ∈ (stepAnchor env st a).items, it.link ∈ (stepAnchor env st a).seen := by
  unfold stepAnchor
  split
  · exact ⟨h1, h2⟩
  split
  · exact ⟨h1, h2⟩
  dsimp only
  split
  · exact ⟨h1, h2⟩
  split
  · exact ⟨h1, h2⟩
  rename_i hseen
  rw [Bool.not_eq_true] at hseen
  have hnotmem := contains_false_not_mem hseen
  split
  · constructor
    · exact h1
    · intro it hit
      exact List.mem_cons_of_mem _ (h2 it hit)
  split
  · constructor
    · rw [List.map_append]
      rw [List.nodup_append]
      refine ⟨h1, List.nodup_singleton _, ?_⟩
      intro x hx hx2
      simp only [List.map_cons, List.map_nil, List.mem_singleton] at hx2
      subst hx2
      obtain ⟨it, hit, hlink⟩ := List.mem_map.mp hx
      exact hnotmem (hlink ▸ h2 it hit)
    · intro it hit
      rw [List.mem_append] at hit
      cases hit with
      | inl hold => exact List.mem_cons_of_mem _ (h2 it hold)
      | inr hnew =>
        rw [List.mem_singleton] at hnew
        subst hnew
        exact List.mem_cons_self _ _
  · constructor
    · rw [List.map_append]
      rw [List.nodup_append]
      refine ⟨h1, List.nodup_singleton _, ?_⟩
      intro x hx hx2
      simp only [List.map_cons, List.map_nil, List.mem_singleton] at hx2
      subst hx2
      obtain ⟨it, hit, hlink⟩ := List.mem_map.mp hx
      exact hnotmem (hlink ▸ h2 it hit)
    · intro it hit
      rw [List.mem_append] at hit
      cases hit with
      | inl hold => exact List.mem_cons_of_mem _ (h2 it hold)
      | inr hnew =>
        rw [List.mem_singleton] at hnew
        subst hnew
        exact List.mem_cons_self _ _

theorem fetch_nodup_inv (env : PageEnv) :
    ∀ (anchors : List Anchor) (st : FetchSt),
      (st.items.map (fun it => it.link)).Nodup →
      (∀ it ∈ st.items, it.link ∈ st.seen) →
      ((anchors.foldl (stepAnchor env) st).items.map (fun it => it.link)).Nodup := by
  intro anchors
  induction anchors with
  | nil =>
    intro st g1 g2
    exact g1
  | cons a t ih =>
    intro st g1 g2
    rw [List.foldl_cons]
    obtain ⟨k1, k2⟩ := stepAnchor_nodup_inv env st a g1 g2
    exact ih _ k1 k2

/-- C10: the resolved link joins the seen set before the title-length
filter runs.  Hence the candidate list of one page fetch has pairwise
distinct links; an anchor whose link was already seen contributes nothing
(whatever its text); and an unseen anchor with a degenerate (short) title
is dropped while its link still enters the seen set, poisoning every
later occurrence of the same link. -/
theorem c10_seen_poisoning (env : PageEnv) :
    (∀ anchors : List Anchor,
      ((fetch_html_items env anchors).items.map (fun it => it.link)).Nodup)
    ∧ (∀ (st : FetchSt) (a : Anchor) (href : Str), a.href = some href →
        st.seen.contains (env.ujoin env.pageUrl href) = true →
        stepAnchor env st a = st)
    ∧ (∀ (st : FetchSt) (a : Anchor) (href : Str),
        ¬ env.limitN ≤ st.items.length →
        a.href = some href →
        ((env.pageUrl ++ ['#']).isPrefixOf (env.ujoin env.pageUrl href)
          || (env.ujoin env.pageUrl href) == env.pageUrl) = false →
        st.seen.contains (env.ujoin env.pageUrl href) = false →
        (!strTruthy a.textTrim || decide (a.textTrim.length < 2)) = true →
        stepAnchor env st a = { st with seen := env.ujoin env.pageUrl href :: st.seen }) := by
  refine ⟨?_, ?_, ?_⟩
  · intro anchors
    exact fetch_nodup_inv env anchors initFetchSt List.nodup_nil (by intro it hit; cases hit)
  · intro st a href hhref hseen
    unfold stepAnchor
    rw [hhref]
    dsimp only
    split
    · rfl
    split
    · rfl
    simp [hseen]
  · intro st a href hlim hhref hsel hseen htitle
    unfold stepAnchor
    rw [if_neg hlim, hhref]
    dsimp only
    rw [if_neg (by rw [hsel]; exact Bool.false_ne_true), if_neg (by rw [hseen]; exact Bool.false_ne_true)]
    rw [if_pos htitle]

/-- Witness for C10: on a two-anchor page where both anchors resolve to
the same link and the first has a one-character title, the fetch returns
no items at all, and the short-titled first anchor leaves its link in the
seen set. -/
theorem c10_seen_poisoning_witness :
    ((fetch_html_items ⟨"u".data, fun _ h => h, none, none, fun _ => none, 50, 1⟩
        [⟨some "l1".data, ['x'], none, none, none⟩,
          ⟨some "l1".data, "good title".data, none, none, none⟩]).items.map
        (fun it => it.link)).Nodup
    ∧ stepAnchor ⟨"u".data, fun _ h => h, none, none, fun _ => none, 50, 1⟩
        initFetchSt ⟨some "l1".data, ['x'], none, none, none⟩
      = { initFetchSt with seen := ["l1".data] }
    ∧ stepAnchor ⟨"u".data, fun _ h => h, none, none, fun _ => none, 50, 1⟩
        { initFetchSt with seen := ["l1".data] }
        ⟨some "l1".data, "good title".data, none, none, none⟩
      = { initFetchSt with seen := ["l1".data] } := by
  have h := c10_seen_poisoning ⟨"u".data, fun _ h => h, none, none, fun _ => none, 50, 1⟩
  refine ⟨h.1 [⟨some "l1".data, ['x'], none, none, none⟩,
    ⟨some "l1".data, "good title".data, none, none, none⟩], ?_, ?_⟩
  · have hs := h.2.2 initFetchSt ⟨some "l1".data, ['x'], none, none, none⟩ "l1".data
      (by decide) rfl (by decide) (by decide) (by decide)
    rw [hs]
    rfl
  · have hs := h.2.1 { initFetchSt with seen := ["l1".data] }
      ⟨some "l1".data, "good title".data, none, none, none⟩ "l1".data rfl (by decide)
    rw [hs]

/-! ### C5: extractor pattern precedence -/

theorem digits4_len {cs p r : Str} (h : digits4 cs = some (p, r)) : p.length = 4 := by
  rcases cs with _ | ⟨a, _ | ⟨b, _ | ⟨c, _ | ⟨d, t⟩⟩⟩⟩
  · simp [digits4] at h
  · simp [digits4] at h
  · simp [digits4] at h
  · simp [digits4] at h
  · simp only [digits4] at h
    split at h
    · simp only [Option.some.injEq, Prod.mk.injEq] at h
      rw [← h.1]
      rfl
    · cases h

theorem digits12_len {cs p r : Str} (h : digits12 cs = some (p, r)) : 1 ≤ p.length := by
  rcases cs with _ | ⟨a, _ | ⟨b, t⟩⟩
  · simp [digits12] at h
  · simp only [digits12] at h
    split at h
    · simp only [Option.some.injEq, Prod.mk.injEq] at h
      rw [← h.1]
      simp
    · cases h
  · simp only [digits12] at h
    split at h
    · split at h
      · simp only [Option.some.injEq, Prod.mk.injEq] at h
        rw [← h.1]
        simp
      · simp only [Option.some.injEq, Prod.mk.injEq] at h
        rw [← h.1]
        simp
    · cases h

theorem xIsoAt_length {cs r : Str} (h : xIsoAt cs = some r) : 8 ≤ r.length := by
  unfold xIsoAt at h
  cases h0 : digits4 cs with
  | none => rw [h0] at h; simp at h
  | some pr =>
    obtain ⟨y, r1⟩ := pr
    rw [h0] at h
    simp only [Option.bind_eq_bind', Option.some_bind'] at h
    cases h1 : chSlashDash r1 with
    | none => rw [h1] at h; simp at h
    | some sr1 =>
      obtain ⟨s1, r2⟩ := sr1
      rw [h1] at h
      simp only [Option.some_bind'] at h
      cases h2 : digits12 r2 with
      | none => rw [h2] at h; simp at h
      | some mr =>
        obtain ⟨m, r3⟩ := mr
        rw [h2] at h
        simp only [Option.some_bind'] at h
        cases h3 : chSlashDash r3 with
        | none => rw [h3] at h; simp at h
        | some sr2 =>
          obtain ⟨s2, r4⟩ := sr2
          rw [h3] at h
          simp only [Option.some_bind'] at h
          cases h4 : digits12 r4 with
          | none => rw [h4] at h; simp at h
          | some dr =>
            obtain ⟨d, r5⟩ := dr
            rw [h4] at h
            simp only [Option.some_bind'] at h
            have hy := digits4_len h0
            have hm := digits12_len h2
            have hd := digits12_len h4
            have hr : y ++ s1 :: (m ++ s2 :: d) = r := by
              simpa using h
            rw [← hr]
            simp only [List.length_append, List.length_cons]
            omega

theorem xIsoAt_iso_append (post : Str) :
    (xIsoAt ("2026/1/9".data ++ post)) ≠ none := by
  obtain ⟨pr, hpr⟩ : ∃ pr, digits12 ('9' :: post) = some pr := by
    cases post with
    | nil => exact ⟨(['9'], []), by decide⟩
    | cons p ps =>
      by_cases hp : isDigitCh p = true
      · exact ⟨(['9', p], ps), by simp +decide [digits12, hp]⟩
      · exact ⟨(['9'], p :: ps), by simp +decide [digits12, hp]⟩
  show (xIsoAt ('2' :: '0' :: '2' :: '6' :: '/' :: '1' :: '/' :: '9' :: post)) ≠ none
  have h4 : digits4 ('2' :: '0' :: '2' :: '6' :: ('/' :: '1' :: '/' :: '9' :: post))
      = some (['2', '0', '2', '6'], '/' :: '1' :: '/' :: '9' :: post) := by
    simp only [digits4]
    rw [if_pos (by decide)]
  have h12 : digits12 ('1' :: '/' :: '9' :: post) = some (['1'], '/' :: '9' :: post) := by
    simp only [digits12]
    rw [if_pos (by decide), if_neg (by decide)]
  have hsd : ∀ rest : Str, chSlashDash ('/' :: rest) = some ('/', rest) := by
    intro rest
    simp [chSlashDash]
  unfold xIsoAt
  rw [h4]
  simp only [Option.bind_eq_bind', Option.some_bind']
  rw [hsd]
  simp only [Option.some_bind']
  rw [h12]
  simp only [Option.some_bind']
  rw [hsd]
  simp only [Option.some_bind']
  rw [hpr]
  simp only [Option.some_bind']
  simp

theorem extract_contains_iso (pre post : Str) :
    ∃ r, extract_date_text (pre ++ ("2026/1/9".data ++ post)) = some r
      ∧ 8 ≤ r.length ∧ r ≠ "1/9".data := by
  have hne : searchFirst xIsoAt (pre ++ ("2026/1/9".data ++ post)) ≠ none :=
    searchFirst_ne_none_append pre _ (xIsoAt_iso_append post)
  obtain ⟨r, hr⟩ := Option.ne_none_iff_exists'.mp hne
  have hlen : 8 ≤ r.length := by
    obtain ⟨t, _, hmt⟩ := searchFirst_some_ex hr
    exact xIsoAt_length hmt
  refine ⟨r, ?_, hlen, ?_⟩
  · have hne2 : (pre ++ ("2026/1/9".data ++ post)).isEmpty = false := by
      cases pre with
      | nil => rfl
      | cons a t => rfl
    simp only [extract_date_text, hne2, Bool.false_eq_true, if_false, hr]
  · intro he
    rw [he] at hlen
    exact absurd hlen (by decide)

/-- C5 (amended): the extractor applies the DATE_PATTERNS in their actual
source order (ISO-like numeric first, then Gregorian long form, then
era-qualified long form, then year-less long form, then slash/dash
pairs), returning the first matching pattern's leftmost match; for every
context text containing "2026/1/9" the result is an ISO-like match of at
least 8 characters and never the bare "1/9" fragment (though another
ISO-like date occurring earlier may win); a Gregorian long-form match
beats an era-qualified one; and no-pattern-matched yields absent, not an
error. -/
theorem c5_pattern_precedence :
    (∀ pre post : Str,
      ∃ r, extract_date_text (pre ++ ("2026/1/9".data ++ post)) = some r
        ∧ 8 ≤ r.length ∧ r ≠ "1/9".data)
    ∧ extract_date_text "xx 2026/1/9 and 1/9 yy".data = some "2026/1/9".data
    ∧ extract_date_text "令和8年1月9日 2026年1月9日".data = some "2026年1月9日".data
    ∧ (∀ t : Str,
        searchFirst xIsoAt t = none → searchFirst xY4KanjiAt t = none →
        searchFirst xEraAt t = none → searchFirst xMdKanjiAt t = none →
        searchFirst xMdSlashAt t = none →
        extract_date_text t = none) := by
  refine ⟨extract_contains_iso, by decide, by decide, ?_⟩
  intro t h1 h2 h3 h4 h5
  cases t with
  | nil => rfl
  | cons a s => simp [extract_date_text, h1, h2, h3, h4, h5]

/-- Witness for C5 (amended), instantiating the universal part at a text
with a second ISO-like date before "2026/1/9": the result is that earlier
ISO-like match, 10 characters long, not the fragment "1/9". -/
theorem c5_pattern_precedence_witness :
    (∃ r, extract_date_text ("2025-03-04 ".data ++ ("2026/1/9".data ++ " 1/9".data))
      = some r ∧ 8 ≤ r.length ∧ r ≠ "1/9".data)
    ∧ extract_date_text "hello".data = none := by
  exact ⟨c5_pattern_precedence.1 "2025-03-04 ".data " 1/9".data,
    c5_pattern_precedence.2.2.2 "hello".data (by decide) (by decide) (by decide)
      (by decide) (by decide)⟩

/-- C5 counterexample: a context text containing both "2026/1/9" and a
standalone "1/9" for which the extractor does not return "2026/1/9" (an
earlier ISO-like date wins), refuting the claim as stated; moreover the
claimed pattern order (era before Gregorian long form) disagrees with the
code, which tries the Gregorian long form first. -/
theorem c5_counterexample :
    extract_date_text "2025-03-04 2026/1/9 1/9".data ≠ some "2026/1/9".data
    ∧ extract_date_text "2025-03-04 2026/1/9 1/9".data = some "2025-03-04".data := by
  exact ⟨by decide, by decide⟩

/-! ### C3 and C4: shape lemmas for the date normalizer -/

theorem isDigitCh_slash : isDigitCh '/' = false := by decide

theorem chExact_cons_self (x : Char) (rest : Str) : chExact x (x :: rest) = some rest := by
  simp [chExact]

theorem chSlashDash_slash (rest : Str) : chSlashDash ('/' :: rest) = some ('/', rest) := by
  simp [chSlashDash]

theorem searchFirst_self_some {α : Type} {m : Str → Option α} {l : Str} {r : α}
    (h : m l = some r) : searchFirst m l = some r := by
  cases l with
  | nil => simpa [searchFirst] using h
  | cons a t => exact searchFirst_cons_some h

theorem wsStar_nodigit_head {ds rest : Str} (h1 : ds.length = 1 ∨ ds.length = 2)
    (hd2 : ∀ c ∈ ds, isDigitCh c = true) :
    wsStar (ds ++ rest) = ([], ds ++ rest) := by
  rcases ds with _ | ⟨e, t⟩
  · simp at h1
  · show wsStar (e :: (t ++ rest)) = ([], e :: (t ++ rest))
    exact wsStar_cons_nows (digit_not_ws (hd2 e (by simp)))

theorem not_mem_shape_kanji {x : Char} {ms ds : Str}
    (hm2 : ∀ c ∈ ms, isDigitCh c = true) (hd2 : ∀ c ∈ ds, isDigitCh c = true)
    (hxd : isDigitCh x = false) (hx1 : ¬ x = '月') (hx2 : ¬ x = '日') :
    x ∉ ms ++ '月' :: (ds ++ ['日']) := by
  intro hx
  simp only [List.mem_append, List.mem_cons, List.mem_singleton, List.not_mem_nil,
    or_false] at hx
  rcases hx with hx | hx | hx | hx
  · exact absurd (hm2 x hx) (by simp [hxd])
  · exact hx1 hx
  · exact absurd (hd2 x hx) (by simp [hxd])
  · exact hx2 hx

theorem not_mem_shape_slash {x : Char} {ms ds : Str}
    (hm2 : ∀ c ∈ ms, isDigitCh c = true) (hd2 : ∀ c ∈ ds, isDigitCh c = true)
    (hxd : isDigitCh x = false) (hx1 : ¬ x = '/') :
    x ∉ ms ++ '/' :: ds := by
  intro hx
  simp only [List.mem_append, List.mem_cons] at hx
  rcases hx with hx | hx | hx
  · exact absurd (hm2 x hx) (by simp [hxd])
  · exact hx1 hx
  · exact absurd (hd2 x hx) (by simp [hxd])

theorem ws_shape_kanji {ms ds : Str}
    (hm2 : ∀ c ∈ ms, isDigitCh c = true) (hd2 : ∀ c ∈ ds, isDigitCh c = true) :
    ∀ c ∈ ms ++ '月' :: (ds ++ ['日']), isWsCh c = false := by
  intro c hc
  simp only [List.mem_append, List.mem_cons, List.mem_singleton, List.not_mem_nil,
    or_false] at hc
  rcases hc with hc | hc | hc | hc
  · exact digit_not_ws (hm2 c hc)
  · subst hc
    decide
  · exact digit_not_ws (hd2 c hc)
  · subst hc
    decide

theorem ws_shape_slash {ms ds : Str}
    (hm2 : ∀ c ∈ ms, isDigitCh c = true) (hd2 : ∀ c ∈ ds, isDigitCh c = true) :
    ∀ c ∈ ms ++ '/' :: ds, isWsCh c = false := by
  intro c hc
  simp only [List.mem_append, List.mem_cons] at hc
  rcases hc with hc | hc | hc
  · exact digit_not_ws (hm2 c hc)
  · subst hc
    decide
  · exact digit_not_ws (hd2 c hc)

theorem matchMdKanjiAt_shape {ms ds : Str}
    (hm1 : ms.length = 1 ∨ ms.length = 2) (hm2 : ∀ c ∈ ms, isDigitCh c = true)
    (hd1 : ds.length = 1 ∨ ds.length = 2) (hd2 : ∀ c ∈ ds, isDigitCh c = true) :
    matchMdKanjiAt (ms ++ '月' :: (ds ++ ['日']))
      = some (digitsToNat ms, digitsToNat ds) := by
  unfold matchMdKanjiAt
  rw [digits12_exact hm1 hm2 (by decide)]
  simp only [Option.bind_eq_bind', Option.some_bind']
  rw [chExact_cons_self]
  simp only [Option.some_bind']
  rw [wsStar_nodigit_head hd1 hd2]
  simp only []
  rw [digits12_exact hd1 hd2 (by decide)]
  simp only [Option.some_bind']
  rw [chExact_cons_self]
  simp only [Option.some_bind']
  rfl

theorem matchMdSlashAt_shape {ms ds : Str}
    (hm1 : ms.length = 1 ∨ ms.length = 2) (hm2 : ∀ c ∈ ms, isDigitCh c = true)
    (hd1 : ds.length = 1 ∨ ds.length = 2) (hd2 : ∀ c ∈ ds, isDigitCh c = true) :
    matchMdSlashAt (ms ++ '/' :: ds) = some (digitsToNat ms, digitsToNat ds) := by
  unfold matchMdSlashAt
  rw [digits12_exact hm1 hm2 isDigitCh_slash]
  simp only [Option.bind_eq_bind', Option.some_bind']
  rw [chSlashDash_slash]
  simp only [Option.some_bind']
  rw [digits12_end hd1 hd2]
  simp only [Option.some_bind']
  rfl

theorem searchY4Slash_none_slash_shape {ms ds : Str}
    (hm1 : ms.length = 1 ∨ ms.length = 2) (hm2 : ∀ c ∈ ms, isDigitCh c = true)
    (hd1 : ds.length = 1 ∨ ds.length = 2) (hd2 : ∀ c ∈ ds, isDigitCh c = true) :
    searchFirst matchY4SlashAt (ms ++ '/' :: ds) = none := by
  rcases ms with _ | ⟨a, _ | ⟨b, _ | ⟨x1, t1⟩⟩⟩
  · simp at hm1
  · rcases ds with _ | ⟨e, _ | ⟨f, _ | ⟨x2, t2⟩⟩⟩
    · simp at hd1
    · simp [searchFirst, matchY4SlashAt, digits4]
    · simp [searchFirst, matchY4SlashAt, digits4, isDigitCh_slash]
    · simp at hd1
  · rcases ds with _ | ⟨e, _ | ⟨f, _ | ⟨x2, t2⟩⟩⟩
    · simp at hd1
    · simp [searchFirst, matchY4SlashAt, digits4, isDigitCh_slash]
    · simp [searchFirst, matchY4SlashAt, digits4, isDigitCh_slash]
    · simp at hd1
  · simp at hm1

/-- C3: a year-less date of shape M月D日 or M/D is completed with the
reference instant's year, minus one exactly when the parsed month is
strictly greater than the reference month (equal months keep the
reference year). -/
theorem c3_yearless_rollover (ms ds : Str) (base : PyDt)
    (hm1 : ms.length = 1 ∨ ms.length = 2) (hm2 : ∀ c ∈ ms, isDigitCh c = true)
    (hd1 : ds.length = 1 ∨ ds.length = 2) (hd2 : ∀ c ∈ ds, isDigitCh c = true) :
    normalize_date_text (ms ++ '月' :: (ds ++ ['日'])) base
      = fmtDate (if base.month < digitsToNat ms then base.year - 1 else base.year)
          (digitsToNat ms) (digitsToNat ds)
    ∧ normalize_date_text (ms ++ '/' :: ds) base
      = fmtDate (if base.month < digitsToNat ms then base.year - 1 else base.year)
          (digitsToNat ms) (digitsToNat ds) := by
  constructor
  · have hne : (ms ++ '月' :: (ds ++ ['日'])).isEmpty = false := by
      simp
    have hstrip := pyStrip_eq_self (ws_shape_kanji hm2 hd2)
    have hera : searchFirst matchEraNAt (ms ++ '月' :: (ds ++ ['日'])) = none := by
      refine searchFirst_eq_none_of (p := fun x => x = '令')
        (fun cs r h => ⟨'令', matchEraNAt_mem h, rfl⟩) _ ?_
      intro x hx he
      subst he
      exact not_mem_shape_kanji hm2 hd2 (by decide) (by decide) (by decide) hx
    have hy4k : searchFirst matchY4KanjiAt (ms ++ '月' :: (ds ++ ['日'])) = none := by
      refine searchFirst_eq_none_of (p := fun x => x = '年')
        (fun cs r h => ⟨'年', matchY4KanjiAt_mem h, rfl⟩) _ ?_
      intro x hx he
      subst he
      exact not_mem_shape_kanji hm2 hd2 (by decide) (by decide) (by decide) hx
    have hy4s : searchFirst matchY4SlashAt (ms ++ '月' :: (ds ++ ['日'])) = none := by
      refine searchFirst_eq_none_of (p := fun x => x = '/' ∨ x = '-')
        (fun cs r h => matchY4SlashAt_mem h) _ ?_
      intro x hx hor
      rcases hor with he | he <;> subst he
      · exact not_mem_shape_kanji hm2 hd2 (by decide) (by decide) (by decide) hx
      · exact not_mem_shape_kanji hm2 hd2 (by decide) (by decide) (by decide) hx
    have hmd := searchFirst_self_some (matchMdKanjiAt_shape hm1 hm2 hd1 hd2)
    unfold normalize_date_text
    rw [if_neg (by rw [hne]; exact Bool.false_ne_true)]
    simp only [hstrip, hera, hy4k, hy4s, hmd, Option.orElse]
  · have hne2 : (ms ++ '/' :: ds).isEmpty = false := by
      simp
    have hstrip2 := pyStrip_eq_self (ws_shape_slash hm2 hd2)
    have hera2 : searchFirst matchEraNAt (ms ++ '/' :: ds) = none := by
      refine searchFirst_eq_none_of (p := fun x => x = '令')
        (fun cs r h => ⟨'令', matchEraNAt_mem h, rfl⟩) _ ?_
      intro x hx he
      subst he
      exact not_mem_shape_slash hm2 hd2 (by decide) (by decide) hx
    have hy4k2 : searchFirst matchY4KanjiAt (ms ++ '/' :: ds) = none := by
      refine searchFirst_eq_none_of (p := fun x => x = '年')
        (fun cs r h => ⟨'年', matchY4KanjiAt_mem h, rfl⟩) _ ?_
      intro x hx he
      subst he
      exact not_mem_shape_slash hm2 hd2 (by decide) (by decide) hx
    have hy4s2 := searchY4Slash_none_slash_shape hm1 hm2 hd1 hd2
    have hmdk2 : searchFirst matchMdKanjiAt (ms ++ '/' :: ds) = none := by
      refine searchFirst_eq_none_of (p := fun x => x = '月')
        (fun cs r h => ⟨'月', matchMdKanjiAt_mem h, rfl⟩) _ ?_
      intro x hx he
      subst he
      exact not_mem_shape_slash hm2 hd2 (by decide) (by decide) hx
    have hmds := searchFirst_self_some (matchMdSlashAt_shape hm1 hm2 hd1 hd2)
    unfold normalize_date_text
    rw [if_neg (by rw [hne2]; exact Bool.false_ne_true)]
    simp only [hstrip2, hera2, hy4k2, hy4s2, hmdk2, hmds, Option.orElse]

/-- Witness for C3 at the spec's two concrete examples with reference
instant 2026-01-15: "12月20日" normalizes to 2025-12-20 (rollover) and
"1月10日" to 2026-01-10 (equal month keeps the year). -/
theorem c3_yearless_rollover_witness :
    normalize_date_text "12月20日".data ⟨2026, 1, 0, none⟩ = "2025-12-20".data
    ∧ normalize_date_text "1月10日".data ⟨2026, 1, 0, none⟩ = "2026-01-10".data := by
  constructor
  · have h := (c3_yearless_rollover ['1', '2'] ['2', '0'] ⟨2026, 1, 0, none⟩
      (by decide) (by decide) (by decide) (by decide)).1
    rw [show "12月20日".data = ['1', '2'] ++ '月' :: (['2', '0'] ++ ['日']) from rfl, h]
    decide
  · have h := (c3_yearless_rollover ['1'] ['1', '0'] ⟨2026, 1, 0, none⟩
      (by decide) (by decide) (by decide) (by decide)).1
    rw [show "1月10日".data = ['1'] ++ '月' :: (['1', '0'] ++ ['日']) from rfl, h]
    decide

/-! ### C4: era-based date conversion -/

theorem matchEraNAt_shape {ns ms ds : Str}
    (hn1 : ns.length = 1 ∨ ns.length = 2) (hn2 : ∀ c ∈ ns, isDigitCh c = true)
    (hm1 : ms.length = 1 ∨ ms.length = 2) (hm2 : ∀ c ∈ ms, isDigitCh c = true)
    (hd1 : ds.length = 1 ∨ ds.length = 2) (hd2 : ∀ c ∈ ds, isDigitCh c = true) :
    matchEraNAt ('令' :: '和' :: (ns ++ '年' :: (ms ++ '月' :: (ds ++ ['日']))))
      = some (digitsToNat ns, digitsToNat ms, digitsToNat ds) := by
  unfold matchEraNAt
  rw [chExact_cons_self]
  simp only [Option.bind_eq_bind', Option.some_bind']
  rw [chExact_cons_self]
  simp only [Option.some_bind']
  rw [digits12_exact hn1 hn2 (by decide)]
  simp only [Option.some_bind']
  rw [chExact_cons_self]
  simp only [Option.some_bind']
  rw [wsStar_nodigit_head hm1 hm2]
  simp only []
  rw [digits12_exact hm1 hm2 (by decide)]
  simp only [Option.some_bind']
  rw [chExact_cons_self]
  simp only [Option.some_bind']
  rw [wsStar_nodigit_head hd1 hd2]
  simp only []
  rw [digits12_exact hd1 hd2 (by decide)]
  simp only [Option.some_bind']
  rw [chExact_cons_self]
  simp only [Option.some_bind']
  rfl

theorem ws_shape_era {ns ms ds : Str}
    (hn2 : ∀ c ∈ ns, isDigitCh c = true) (hm2 : ∀ c ∈ ms, isDigitCh c = true)
    (hd2 : ∀ c ∈ ds, isDigitCh c = true) :
    ∀ c ∈ '令' :: '和' :: (ns ++ '年' :: (ms ++ '月' :: (ds ++ ['日']))), isWsCh c = false := by
  intro c hc
  simp only [List.mem_append, List.mem_cons, List.mem_singleton, List.not_mem_nil,
    or_false] at hc
  rcases hc with hc | hc | hc | hc | hc | hc | hc | hc
  · subst hc
    decide
  · subst hc
    decide
  · exact digit_not_ws (hn2 c hc)
  · subst hc
    decide
  · exact digit_not_ws (hm2 c hc)
  · subst hc
    decide
  · exact digit_not_ws (hd2 c hc)
  · subst hc
    decide

/-- C4: an era-based date of shape 令和N年M月D日 converts to the Gregorian
date with year 2018 + N (the era's fixed offset), month M and day D. -/
theorem c4_era_conversion (ns ms ds : Str) (base : PyDt)
    (hn1 : ns.length = 1 ∨ ns.length = 2) (hn2 : ∀ c ∈ ns, isDigitCh c = true)
    (hm1 : ms.length = 1 ∨ ms.length = 2) (hm2 : ∀ c ∈ ms, isDigitCh c = true)
    (hd1 : ds.length = 1 ∨ ds.length = 2) (hd2 : ∀ c ∈ ds, isDigitCh c = true) :
    normalize_date_text ('令' :: '和' :: (ns ++ '年' :: (ms ++ '月' :: (ds ++ ['日'])))) base
      = fmtDate (2018 + (digitsToNat ns : Int)) (digitsToNat ms) (digitsToNat ds) := by
  have hstrip := pyStrip_eq_self (ws_shape_era hn2 hm2 hd2)
  have hera := searchFirst_self_some (matchEraNAt_shape hn1 hn2 hm1 hm2 hd1 hd2)
  unfold normalize_date_text
  rw [if_neg (by simp)]
  simp only [hstrip, hera]

/-- Witness for C4 at the spec's concrete example: era-year 8, month 1,
day 9 converts to 2026-01-09 (offset 2018). -/
theorem c4_era_conversion_witness :
    normalize_date_text "令和8年1月9日".data ⟨2026, 1, 0, none⟩ = "2026-01-09".data := by
  have h := c4_era_conversion ['8'] ['1'] ['9'] ⟨2026, 1, 0, none⟩
    (by decide) (by decide) (by decide) (by decide) (by decide) (by decide)
  rw [show "令和8年1月9日".data
    = '令' :: '和' :: (['8'] ++ '年' :: (['1'] ++ '月' :: (['9'] ++ ['日']))) from rfl, h]
  decide
